import Mathlib

/-!
Verification of the rally-timing core of the wos-countdown-voice repository.

The development is a shallow embedding of the two source files that carry the
logic under scrutiny:

* `src/activity/web/src/App.jsx` — the client: the clock-sync estimator
  (`setOffsetSample`, `handleTimeSyncResponse`, the `SYNC_SAMPLE_COUNT` window)
  and the rally schedule computation (`rallyComputed`, `formatMs`).
* `src/activity/worker/src/index.ts` — the server: the room state machine
  (`handleMessage` for PLAYER_ADD / PLAYER_REMOVE / RALLY_START / RALLY_END)
  and the stale-room reset in `ensureLoaded`.

Timestamps and durations are embedded as `ℤ` (epoch milliseconds); the one
place JavaScript produces a fractional value (the clock offset, halved sum of
two integer differences) is embedded as `ℚ`.  Values that JavaScript guards
with `Number.isFinite` / `typeof` checks are embedded as `JsNumber`, keeping
the three cases the guards distinguish: absent, present-but-not-finite, and a
finite number.
-/

namespace WosRally

/-- A JavaScript value inspected by a numeric guard: `undef` for a missing
field, `nonFinite` for a present value that is not a finite number
(`NaN`, `±Infinity`, a string, …), `fin n` for a finite number. -/
inductive JsNumber where
  | undef
  | nonFinite
  | fin (n : ℤ)
deriving DecidableEq, Repr

/-- `Number.isFinite x` on a `JsNumber`. -/
def JsNumber.isFin : JsNumber → Bool
  | .fin _ => true
  | _ => false

/-- `Player` of `worker/src/index.ts` (`{ id, name, marchMs }`). -/
structure Player where
  id : String
  name : String
  marchMs : ℤ
deriving DecidableEq, Repr

/-- `Rally` of `worker/src/index.ts` (`{ starterId, launchAt }`). -/
structure Rally where
  starterId : String
  launchAt : ℤ
deriving DecidableEq, Repr

/-- `RoomState` of `worker/src/index.ts`. -/
structure RoomState where
  players : List Player
  rally : Option Rally
  lastActiveAt : ℤ
deriving DecidableEq, Repr

/-! ## Clock-sync estimator (client, `App.jsx`) -/

/-- `const SYNC_SAMPLE_COUNT = 6` (App.jsx line 13). -/
def SYNC_SAMPLE_COUNT : ℕ := 6

/-- One clock-sync sample `{ offsetMs, rttMs, atTs }` pushed by
`setOffsetSample`.  The offset is a `ℚ` because it is half of an integer sum. -/
structure ClockSyncSample where
  offsetMs : ℚ
  rttMs : ℤ
  atTs : ℤ
deriving DecidableEq, Repr

/-- JavaScript `arr.slice(-n)`: the last `n` elements of the array
(the whole array when it is shorter than `n`). -/
def jsSliceLast {α : Type} (n : ℕ) (l : List α) : List α :=
  l.drop (l.length - n)

/-- The window update performed at the top of `setOffsetSample`:
`const samples = syncSamplesRef.current.slice(-SYNC_SAMPLE_COUNT + 1);
samples.push({ offsetMs, rttMs, atTs });`. -/
def pushSample (w : List ClockSyncSample) (s : ClockSyncSample) : List ClockSyncSample :=
  jsSliceLast (SYNC_SAMPLE_COUNT - 1) w ++ [s]

/-- `samples.reduce((min, next) => (next.rttMs < min.rttMs ? next : min), init)`:
a left fold keeping the first sample of strictly least RTT seen so far. -/
def reduceMinRtt (init : ClockSyncSample) (l : List ClockSyncSample) : ClockSyncSample :=
  l.foldl (fun mn nx => if nx.rttMs < mn.rttMs then nx else mn) init

/-- `samples.reduce((min, next) => ..., samples[0])` — JavaScript `reduce` with
an explicit initial value folds over every element, index 0 included. -/
def bestOf : List ClockSyncSample → Option ClockSyncSample
  | [] => none
  | s :: rest => some (reduceMinRtt s (s :: rest))

/-- Least RTT of a window, folded from a starting value. -/
def minRttFrom (m : ℤ) (l : List ClockSyncSample) : ℤ :=
  l.foldl (fun a s => min a s.rttMs) m

/-- Least RTT present in a window (`none` on the empty window). -/
def windowMinRtt : List ClockSyncSample → Option ℤ
  | [] => none
  | s :: rest => some (minRttFrom s.rttMs rest)

/-- Specification-side selector: the first sample of the window whose RTT
equals the window minimum.  Defined purely from the samples' RTT values and
their positions, so the selection depends on RTTs only, with the earliest
sample winning a tie. -/
def firstMinRttSample (l : List ClockSyncSample) : Option ClockSyncSample :=
  match windowMinRtt l with
  | none => none
  | some m => l.find? (fun s => s.rttMs == m)

/-- The client-side sync state touched by `setOffsetSample`:
`syncSamplesRef`, `offsetRef`, and the React states `timeOffsetMs`,
`bestRttMs`, `lastSyncAt`. -/
structure SyncState where
  samples : List ClockSyncSample
  offsetRef : ℚ
  timeOffsetMs : ℚ
  bestRttMs : Option ℤ
  lastSyncAt : Option ℤ
deriving DecidableEq, Repr

/-- `setOffsetSample(offsetMs, rttMs, atTs)` of App.jsx lines 277-288. -/
def setOffsetSample (st : SyncState) (offsetMs : ℚ) (rttMs atTs : ℤ) : SyncState :=
  let samples := pushSample st.samples ⟨offsetMs, rttMs, atTs⟩
  match bestOf samples with
  | some best =>
      { samples := samples, offsetRef := best.offsetMs, timeOffsetMs := best.offsetMs,
        bestRttMs := some best.rttMs, lastSyncAt := some atTs }
  | none => { st with samples := samples }

/-- `handleTimeSyncResponse(payload)` of App.jsx lines 290-298, with the local
receive instant `t3 = Date.now()` passed explicitly.  A missing payload or a
payload whose `t0`, `t1`, `t2` are not all finite numbers is dropped. -/
def handleTimeSyncResponse (st : SyncState) (payload : Option (JsNumber × JsNumber × JsNumber))
    (t3 : ℤ) : SyncState :=
  match payload with
  | none => st
  | some (a, b, c) =>
    match a, b, c with
    | .fin t0, .fin t1, .fin t2 =>
        let rtt : ℤ := max 0 ((t3 - t0) - (t2 - t1))
        let offset : ℚ := (((t1 : ℚ) - (t0 : ℚ)) + ((t2 : ℚ) - (t3 : ℚ))) / 2
        setOffsetSample st offset rtt t3
    | _, _, _ => st

/-! ## Rally schedule computer (client, `App.jsx` lines 422-467) -/

/-- The two phases of an active rally. -/
inductive Phase where
  | JOIN
  | MARCH
deriving DecidableEq, Repr

/-- One row of `rallyComputed.rows`: the spread player fields plus the derived
instants and signed deltas (App.jsx lines 438-454). -/
structure RallyRow where
  id : String
  name : String
  marchMs : ℤ
  startAt : ℤ
  rallyStartAt : ℤ
  diffMs : ℤ
  diffToRallyStartMs : ℤ
  diffFromLaunchMs : ℤ
  landInMs : ℤ
deriving DecidableEq, Repr

/-- The record returned by the `rallyComputed` memo when a rally is active. -/
structure RallyComputed where
  starter : Player
  launchAt : ℤ
  rallyStartAt : ℤ
  arrivalAt : ℤ
  rows : List RallyRow
  joinRemainingMs : ℤ
  phase : Phase
deriving DecidableEq, Repr

/-- The per-player row built inside `state.players.map(...)` of `rallyComputed`. -/
def mkRow (arrivalAt rallyDurationMs launchAt now : ℤ) (p : Player) : RallyRow :=
  let startAt := arrivalAt - p.marchMs
  let playerRallyStartAt := startAt - rallyDurationMs
  { id := p.id, name := p.name, marchMs := p.marchMs,
    startAt := startAt, rallyStartAt := playerRallyStartAt,
    diffMs := startAt - now, diffToRallyStartMs := playerRallyStartAt - now,
    diffFromLaunchMs := startAt - launchAt, landInMs := arrivalAt - now }

/-- Stable insertion of a row into a list already sorted ascending by
`startAt`: the row goes after every row of smaller-or-equal `startAt`. -/
def insertByStartAt (r : RallyRow) : List RallyRow → List RallyRow
  | [] => [r]
  | x :: xs => if r.startAt < x.startAt then r :: x :: xs else x :: insertByStartAt r xs

/-- `.sort((a, b) => a.startAt - b.startAt)`: ascending stable sort by
`startAt` (JavaScript array sort is stable), embedded as a stable insertion
sort. -/
def jsSortByStartAt (l : List RallyRow) : List RallyRow :=
  l.foldl (fun acc r => insertByStartAt r acc) []

/-- `rallyComputed` (App.jsx lines 422-467).  Inputs: the pushed room state
(`players`, `rally`), the client-local `rallyDurationMs = delay * 60 * 1000`,
and the corrected clock `now`.  Returns `none` when no rally is active or the
declared starter is not found among the players.  The rows are sorted
ascending by `startAt` (`.sort((a, b) => a.startAt - b.startAt)`). -/
def rallyComputed (players : List Player) (rally : Option Rally)
    (rallyDurationMs now : ℤ) : Option RallyComputed :=
  match rally with
  | none => none
  | some activeRally =>
    match players.find? (fun p => p.id == activeRally.starterId) with
    | none => none
    | some starter =>
      let launchAt := activeRally.launchAt
      let rallyStartAt := launchAt - rallyDurationMs
      let arrivalAt := launchAt + starter.marchMs
      let joinRemainingMs := launchAt - now
      let phase := if 0 < joinRemainingMs then Phase.JOIN else Phase.MARCH
      let rows := jsSortByStartAt (players.map (mkRow arrivalAt rallyDurationMs launchAt now))
      some { starter := starter, launchAt := launchAt, rallyStartAt := rallyStartAt,
             arrivalAt := arrivalAt, rows := rows, joinRemainingMs := joinRemainingMs,
             phase := phase }

/-- The "(before March)" flag of the countdown cell: appended exactly when
`r.diffFromLaunchMs < 0` (App.jsx line 896). -/
def beforeMarchFlag (r : RallyRow) : Bool :=
  decide (r.diffFromLaunchMs < 0)

/-- JavaScript `Math.round` on a finite value: half-integers round toward
positive infinity. -/
def jsRound (x : ℚ) : ℤ :=
  ⌊x + 1 / 2⌋

/-- The clamped total-seconds value of `formatMs` (App.jsx lines 30-35):
`Math.max(0, Math.round(ms / 1000))`.  The clamp to zero lives here, in
display formatting, and nowhere in the row arithmetic. -/
def formatMsTotalSec (ms : ℚ) : ℤ :=
  max 0 (jsRound (ms / 1000))

/-! ## Server room state machine (`worker/src/index.ts`) -/

/-- A parsed `ClientMsg` (worker/src/index.ts lines 19-25).  The optional
numeric payload fields of `RALLY_START` and `TIME_SYNC_REQUEST` are kept as
`JsNumber` so the handler's finiteness guards can be embedded faithfully.
A `PLAYER_ADD` with a missing payload object behaves exactly like one whose
`id` is empty (both are dropped by `if (!msg.payload || !msg.payload.id)`),
so the payload is embedded as a `Player` and only the id guard is kept. -/
inductive ClientMsg where
  | STATE_REQUEST
  | PLAYER_ADD (payload : Player)
  | PLAYER_REMOVE (payload : String)
  | RALLY_START (starterId : String) (launchAt rallyDurationMs preDelayMs : JsNumber)
  | RALLY_END
  | TIME_SYNC_REQUEST (t0 : JsNumber)
deriving DecidableEq, Repr

/-- JavaScript `Number(x)` restricted to the finiteness guard that follows it:
`some n` when the result is a finite number, `none` otherwise. -/
def coerceNum : JsNumber → Option ℤ
  | .fin n => some n
  | _ => none

/-- JavaScript `Number(x ?? 0)`: a missing value coerces to `0`, a present
non-finite value fails the finiteness guard. -/
def coerceNumOrZero : JsNumber → Option ℤ
  | .undef => some 0
  | .fin n => some n
  | .nonFinite => none

/-- The `PLAYER_ADD` upsert (worker/src/index.ts lines 112-115): replace the
first player carrying the same id in place (`findIndex` + assignment), else
push at the end. -/
def upsert : List Player → Player → List Player
  | [], p => [p]
  | q :: rest, p => if q.id == p.id then p :: rest else q :: upsert rest p

/-- `handleMessage` (worker/src/index.ts lines 91-168) as a state transition on
`RoomState`; `now` is the server's `Date.now()` at receipt.  `lastActiveAt` is
stamped before the message is dispatched.  Replies (`STATE_REQUEST`,
`TIME_SYNC_REQUEST`) do not change the room state; the broadcast after a
mutation carries exactly the returned state. -/
def handleMessage (now : ℤ) (st : RoomState) (msg : ClientMsg) : RoomState :=
  let st := { st with lastActiveAt := now }
  match msg with
  | .STATE_REQUEST => st
  | .PLAYER_ADD payload =>
      if payload.id = "" then st
      else { st with players := upsert st.players payload }
  | .PLAYER_REMOVE id =>
      if id = "" then st
      else
        { st with
          players := st.players.filter (fun p => p.id != id),
          rally := match st.rally with
            | some r => if r.starterId = id then none else some r
            | none => none }
  | .RALLY_START starterId launchAt rallyDurationMs preDelayMs =>
      if starterId = "" then st
      else
        match coerceNum launchAt with
        | some la => { st with rally := some ⟨starterId, la⟩ }
        | none =>
          match coerceNum rallyDurationMs, coerceNumOrZero preDelayMs with
          | some durationMs, some delayMs =>
              if durationMs < 0 ∨ delayMs < 0 then st
              else { st with rally := some ⟨starterId, now + delayMs + durationMs⟩ }
          | _, _ => st
  | .RALLY_END => { st with rally := none }
  | .TIME_SYNC_REQUEST _ => st

/-- The default empty room of `DEFAULT_STATE`, stamped with a given instant. -/
def initialState (now : ℤ) : RoomState :=
  { players := [], rally := none, lastActiveAt := now }

/-- Run a trace of timed messages through `handleMessage`. -/
def runTrace (st : RoomState) (tr : List (ℤ × ClientMsg)) : RoomState :=
  tr.foldl (fun s nm => handleMessage nm.1 s nm.2) st

/-- The rally of the room, when present, references a player that exists. -/
def starterPresentB (st : RoomState) : Bool :=
  match st.rally with
  | none => true
  | some r => st.players.any (fun p => p.id == r.starterId)

/-- A message is a validated start when, if it is a `RALLY_START`, its
`starterId` names a player of the current room (the check the web client
performs via `canStartRally` before sending). -/
def startValidatedB (st : RoomState) (msg : ClientMsg) : Bool :=
  match msg with
  | .RALLY_START sid _ _ _ => st.players.any (fun p => p.id == sid)
  | _ => true

/-- Every `RALLY_START` of the trace is validated against the state it is
applied to. -/
def validTraceB (st : RoomState) : List (ℤ × ClientMsg) → Bool
  | [] => true
  | (n, m) :: tr => startValidatedB st m && validTraceB (handleMessage n st m) tr

/-! ## Room loading and expiry (`worker/src/index.ts` lines 53-71) -/

/-- `MAX_AGE_MS = 6 * 60 * 60 * 1000`. -/
def MAX_AGE_MS : ℤ := 6 * 60 * 60 * 1000

/-- A stored room blob as `ensureLoaded` reads it back: `lastActiveAt` may be
absent (`none`), which the `!stored.lastActiveAt` guard treats like `0`. -/
structure StoredRoom where
  players : List Player
  rally : Option Rally
  lastActiveAt : Option ℤ
deriving DecidableEq, Repr

/-- `ensureLoaded` (worker/src/index.ts lines 53-71): the state the room holds
after loading `stored` at instant `now`.  A falsy `lastActiveAt` (absent or
`0`) or an age beyond `MAX_AGE_MS` resets to the default empty state stamped
with `now`; otherwise the stored state is kept unchanged. -/
def ensureLoaded (stored : Option StoredRoom) (now : ℤ) : RoomState :=
  match stored with
  | none => { players := [], rally := none, lastActiveAt := now }
  | some st =>
    match st.lastActiveAt with
    | none => { players := [], rally := none, lastActiveAt := now }
    | some la =>
        if la = 0 ∨ MAX_AGE_MS < now - la then
          { players := [], rally := none, lastActiveAt := now }
        else
          { players := st.players, rally := st.rally, lastActiveAt := la }

/-! ## Concrete demonstration values used by the witness theorems -/

/-- A full six-sample window (the RTT burst scenario of the specification). -/
def demoWindow : List ClockSyncSample :=
  [⟨1, 80, 10⟩, ⟨2, 45, 11⟩, ⟨3, 120, 12⟩, ⟨4, 45, 13⟩, ⟨5, 200, 14⟩, ⟨6, 60, 15⟩]

/-- A fresh incoming sample. -/
def demoSample : ClockSyncSample := ⟨7, 50, 16⟩

/-- An empty client sync state. -/
def demoSync : SyncState := ⟨[], 0, 0, none, none⟩

/-- A starter with a 30-second march. -/
def demoStarter : Player := ⟨"s", "S", 30000⟩

/-- A second player with a 50-second march. -/
def demoPlayerTwo : Player := ⟨"p", "P", 50000⟩

/-- The two-player roster of the specification scenario. -/
def demoPlayers : List Player := [demoStarter, demoPlayerTwo]

/-- A rally launched by the starter at instant 100000. -/
def demoRally : Rally := ⟨"s", 100000⟩

/-- A room holding the demo players and the demo rally. -/
def demoRoom : RoomState := ⟨demoPlayers, some demoRally, 0⟩

/-- The room after an unvalidated `RALLY_START` naming the absent player id
"ghost", applied to the default empty room at instant 10
(`launchAt = 10 + 0 + 5 = 15`). -/
def ghostRoomOne : RoomState :=
  handleMessage 10 (initialState 0) (.RALLY_START "ghost" .undef (.fin 5) .undef)

/-- One further transition after `ghostRoomOne`: an unrelated player joins;
the rally still references the absent "ghost". -/
def ghostRoomTwo : RoomState :=
  handleMessage 20 ghostRoomOne (.PLAYER_ADD ⟨"a", "A", 3⟩)

/-- A trace of validated transitions from the default empty room. -/
def demoTrace : List (ℤ × ClientMsg) :=
  [(1, .PLAYER_ADD ⟨"a", "A", 3⟩),
   (2, .RALLY_START "a" .undef (.fin 5) (.fin 0)),
   (3, .PLAYER_ADD ⟨"b", "B", 4⟩),
   (4, .PLAYER_REMOVE "b")]

/-- A freshly-active stored room blob. -/
def demoStored : StoredRoom := ⟨[⟨"s", "S", 30000⟩], some ⟨"s", 100000⟩, some 999999999⟩

/-- The schedule `rallyComputed` derives from the demo scenario with
`rallyDurationMs = 300000` at corrected instant `0`. -/
def demoRC : RallyComputed :=
  { starter := demoStarter,
    launchAt := 100000,
    rallyStartAt := -200000,
    arrivalAt := 130000,
    rows :=
      [{ id := "p", name := "P", marchMs := 50000, startAt := 80000, rallyStartAt := -220000,
         diffMs := 80000, diffToRallyStartMs := -220000, diffFromLaunchMs := -20000,
         landInMs := 130000 },
       { id := "s", name := "S", marchMs := 30000, startAt := 100000, rallyStartAt := -200000,
         diffMs := 100000, diffToRallyStartMs := -200000, diffFromLaunchMs := 0,
         landInMs := 130000 }],
    joinRemainingMs := 100000,
    phase := Phase.JOIN }

/-! ## Window lemmas -/

/-- One window update never produces more than `SYNC_SAMPLE_COUNT` samples,
whatever the previous window held. -/
lemma pushSample_length_le (w : List ClockSyncSample) (s : ClockSyncSample) :
    (pushSample w s).length ≤ SYNC_SAMPLE_COUNT := by
  simp [pushSample, jsSliceLast, SYNC_SAMPLE_COUNT]
  omega

/-- Folding any burst of samples into a bounded window keeps it bounded. -/
lemma foldl_pushSample_length_le (ss : List ClockSyncSample) :
    ∀ w : List ClockSyncSample, w.length ≤ SYNC_SAMPLE_COUNT →
      (ss.foldl pushSample w).length ≤ SYNC_SAMPLE_COUNT := by
  induction ss with
  | nil => intro w hw; exact hw
  | cons s ss ih =>
      intro w _
      exact ih (pushSample w s) (pushSample_length_le w s)

/-- Claim C9: the retained clock-sync window never holds more than the fixed
`SYNC_SAMPLE_COUNT = 6` samples — one update is bounded, and so is any
sequence of updates starting from the empty window — and an update on a full
window evicts exactly the oldest retained sample, keeps the five most recent
ones, and appends the new sample. -/
theorem sample_window_drop_oldest :
    (∀ (w : List ClockSyncSample) (s : ClockSyncSample),
        (pushSample w s).length ≤ SYNC_SAMPLE_COUNT) ∧
    (∀ ss : List ClockSyncSample,
        (ss.foldl pushSample []).length ≤ SYNC_SAMPLE_COUNT) ∧
    (∀ (w : List ClockSyncSample) (s : ClockSyncSample),
        w.length = SYNC_SAMPLE_COUNT → pushSample w s = w.tail ++ [s]) := by
  refine ⟨pushSample_length_le, ?_, ?_⟩
  · intro ss
    exact foldl_pushSample_length_le ss [] (by simp)
  · intro w s hw
    simp [pushSample, jsSliceLast, SYNC_SAMPLE_COUNT, hw, List.drop_one]

/-- Witness for C9 on a concrete full window. -/
theorem sample_window_drop_oldest_witness :
    demoWindow.length = SYNC_SAMPLE_COUNT ∧
      pushSample demoWindow demoSample = demoWindow.tail ++ [demoSample] :=
  ⟨by decide, sample_window_drop_oldest.2.2 demoWindow demoSample (by decide)⟩

/-! ## Minimum-RTT selection lemmas -/

lemma minRttFrom_nil (m : ℤ) : minRttFrom m [] = m := rfl

lemma minRttFrom_cons (m : ℤ) (x : ClockSyncSample) (xs : List ClockSyncSample) :
    minRttFrom m (x :: xs) = minRttFrom (min m x.rttMs) xs := rfl

/-- The folded minimum never exceeds its starting value. -/
lemma minRttFrom_le (l : List ClockSyncSample) : ∀ m : ℤ, minRttFrom m l ≤ m := by
  induction l with
  | nil => intro m; exact le_refl m
  | cons x xs ih =>
      intro m
      calc minRttFrom m (x :: xs) = minRttFrom (min m x.rttMs) xs := rfl
        _ ≤ min m x.rttMs := ih _
        _ ≤ m := min_le_left _ _

lemma reduceMinRtt_cons (init x : ClockSyncSample) (xs : List ClockSyncSample) :
    reduceMinRtt init (x :: xs)
      = reduceMinRtt (if x.rttMs < init.rttMs then x else init) xs := rfl

/-- The JavaScript `reduce` selects exactly the first sample whose RTT equals
the least RTT of the window. -/
lemma find?_minRtt (l : List ClockSyncSample) : ∀ init : ClockSyncSample,
    (init :: l).find? (fun s => s.rttMs == minRttFrom init.rttMs l)
      = some (reduceMinRtt init l) := by
  induction l with
  | nil =>
      intro init
      simp [minRttFrom_nil, reduceMinRtt]
  | cons x xs ih =>
      intro init
      by_cases hx : x.rttMs < init.rttMs
      · have hred : reduceMinRtt init (x :: xs) = reduceMinRtt x xs := by
          rw [reduceMinRtt_cons, if_pos hx]
        have hmin : minRttFrom init.rttMs (x :: xs) = minRttFrom x.rttMs xs := by
          rw [minRttFrom_cons, min_eq_right (le_of_lt hx)]
        have hM : minRttFrom x.rttMs xs ≤ x.rttMs := minRttFrom_le xs _
        have hne : (init.rttMs == minRttFrom x.rttMs xs) = false := by
          rw [beq_eq_false_iff_ne]
          omega
        rw [hred, hmin, List.find?_cons_of_neg _ (by simp [hne]), ih x]
      · push_neg at hx
        have hred : reduceMinRtt init (x :: xs) = reduceMinRtt init xs := by
          rw [reduceMinRtt_cons, if_neg (not_lt.mpr hx)]
        have hmin : minRttFrom init.rttMs (x :: xs) = minRttFrom init.rttMs xs := by
          rw [minRttFrom_cons, min_eq_left hx]
        have hM : minRttFrom init.rttMs xs ≤ init.rttMs := minRttFrom_le xs _
        rw [hred, hmin]
        by_cases hinit : init.rttMs = minRttFrom init.rttMs xs
        · have hp : (init.rttMs == minRttFrom init.rttMs xs) = true := by
            rw [beq_iff_eq]; exact hinit
          have e1 : List.find? (fun s : ClockSyncSample => s.rttMs == minRttFrom init.rttMs xs)
              (init :: x :: xs) = some init := List.find?_cons_of_pos _ hp
          have e2 : List.find? (fun s : ClockSyncSample => s.rttMs == minRttFrom init.rttMs xs)
              (init :: xs) = some init := List.find?_cons_of_pos _ hp
          exact e1.trans (e2 ▸ ih init)
        · have hp : (init.rttMs == minRttFrom init.rttMs xs) = false := by
            rw [beq_eq_false_iff_ne]; exact hinit
          have hxne : (x.rttMs == minRttFrom init.rttMs xs) = false := by
            rw [beq_eq_false_iff_ne]
            omega
          have e1 : List.find? (fun s : ClockSyncSample => s.rttMs == minRttFrom init.rttMs xs)
              (init :: x :: xs)
              = List.find? (fun s : ClockSyncSample => s.rttMs == minRttFrom init.rttMs xs)
                (x :: xs) := List.find?_cons_of_neg _ (by simp [hp])
          have e2 : List.find? (fun s : ClockSyncSample => s.rttMs == minRttFrom init.rttMs xs)
              (x :: xs)
              = List.find? (fun s : ClockSyncSample => s.rttMs == minRttFrom init.rttMs xs)
                xs := List.find?_cons_of_neg _ (by simp [hxne])
          have e3 : List.find? (fun s : ClockSyncSample => s.rttMs == minRttFrom init.rttMs xs)
              (init :: xs)
              = List.find? (fun s : ClockSyncSample => s.rttMs == minRttFrom init.rttMs xs)
                xs := List.find?_cons_of_neg _ (by simp [hp])
          exact e1.trans (e2.trans (e3 ▸ ih init))

/-- The operative best sample of the window equals the specification-side
selector: first sample of minimal RTT. -/
lemma bestOf_eq_firstMin (l : List ClockSyncSample) : bestOf l = firstMinRttSample l := by
  cases l with
  | nil => rfl
  | cons s rest =>
      have h1 : reduceMinRtt s (s :: rest) = reduceMinRtt s rest := by
        rw [reduceMinRtt_cons, if_neg (lt_irrefl s.rttMs)]
      show some (reduceMinRtt s (s :: rest)) = firstMinRttSample (s :: rest)
      rw [h1]
      unfold firstMinRttSample windowMinRtt
      exact (find?_minRtt rest s).symm

/-- `setOffsetSample` always lands in the `some best` branch, with the window
slid, the new sample appended, and every exposed field set from `best`. -/
lemma setOffsetSample_eq (st : SyncState) (o : ℚ) (r a : ℤ) :
    ∃ s rest best, pushSample st.samples ⟨o, r, a⟩ = s :: rest ∧
      bestOf (s :: rest) = some best ∧
      setOffsetSample st o r a =
        { samples := s :: rest, offsetRef := best.offsetMs, timeOffsetMs := best.offsetMs,
          bestRttMs := some best.rttMs, lastSyncAt := some a } := by
  cases hweq : pushSample st.samples ⟨o, r, a⟩ with
  | nil => simp [pushSample] at hweq
  | cons s rest =>
      refine ⟨s, rest, reduceMinRtt s (s :: rest), rfl, rfl, ?_⟩
      unfold setOffsetSample
      rw [hweq]
      rfl

/-- Claim C2: after every window update, the operative clock offset (both the
`offsetRef` consumed by the ticker and the displayed `timeOffsetMs`) equals
the `offsetMs` of the sample selected by `firstMinRttSample` — the first
sample in the retained window whose RTT equals the window minimum.  The
selector is defined from the samples' RTT values alone, so the choice depends
only on RTTs, with the earliest sample winning a tie. -/
theorem effective_offset_min_rtt (st : SyncState) (offsetMs : ℚ) (rttMs atTs : ℤ) :
    ∃ best, firstMinRttSample (setOffsetSample st offsetMs rttMs atTs).samples = some best ∧
      (setOffsetSample st offsetMs rttMs atTs).timeOffsetMs = best.offsetMs ∧
      (setOffsetSample st offsetMs rttMs atTs).offsetRef = best.offsetMs ∧
      (setOffsetSample st offsetMs rttMs atTs).bestRttMs = some best.rttMs := by
  obtain ⟨s, rest, best, hpush, hbest, heq⟩ := setOffsetSample_eq st offsetMs rttMs atTs
  refine ⟨best, ?_, ?_, ?_, ?_⟩
  · rw [heq]
    exact (bestOf_eq_firstMin (s :: rest)) ▸ hbest
  · rw [heq]
  · rw [heq]
  · rw [heq]

/-- Claim C4: a sync reply whose three timestamps are finite folds in exactly
one sample with `rtt = max(0, (t3 - t0) - (t2 - t1))` and
`offset = ((t1 - t0) + (t2 - t3)) / 2`; a missing payload, or one where any
of the three timestamps is not a finite number, leaves the whole sync state
(window and operative offset) untouched. -/
theorem time_sync_fold (st : SyncState) (t0 t1 t2 t3 : ℤ) :
    ((handleTimeSyncResponse st (some (.fin t0, .fin t1, .fin t2)) t3).samples
        = pushSample st.samples
            ⟨(((t1 : ℚ) - (t0 : ℚ)) + ((t2 : ℚ) - (t3 : ℚ))) / 2,
             max 0 ((t3 - t0) - (t2 - t1)), t3⟩) ∧
    (∀ payload : Option (JsNumber × JsNumber × JsNumber),
        (payload = none ∨ ∃ a b c, payload = some (a, b, c) ∧
            (a.isFin && b.isFin && c.isFin) = false) →
        handleTimeSyncResponse st payload t3 = st) := by
  constructor
  · show (setOffsetSample st _ _ t3).samples = _
    obtain ⟨s, rest, best, hpush, hbest, heq⟩ := setOffsetSample_eq st
      ((((t1 : ℚ) - (t0 : ℚ)) + ((t2 : ℚ) - (t3 : ℚ))) / 2)
      (max 0 ((t3 - t0) - (t2 - t1))) t3
    rw [heq]
    exact hpush.symm
  · rintro payload (rfl | ⟨a, b, c, rfl, hfin⟩)
    · rfl
    · cases a <;> cases b <;> cases c <;>
        first
          | rfl
          | exact absurd hfin (by simp [JsNumber.isFin])

/-- Witness for C4: a reply with a non-finite `t0` is dropped without effect. -/
theorem time_sync_fold_witness :
    ((JsNumber.nonFinite.isFin && (JsNumber.fin 1).isFin && (JsNumber.fin 2).isFin) = false) ∧
      handleTimeSyncResponse demoSync (some (.nonFinite, .fin 1, .fin 2)) 110 = demoSync :=
  ⟨by decide,
    (time_sync_fold demoSync 0 0 0 110).2 (some (.nonFinite, .fin 1, .fin 2))
      (Or.inr ⟨_, _, _, rfl, by decide⟩)⟩

/-! ## Rally schedule lemmas -/

/-- Stable insertion permutes to a cons. -/
lemma insertByStartAt_perm (r : RallyRow) (l : List RallyRow) :
    (insertByStartAt r l).Perm (r :: l) := by
  induction l with
  | nil => simp [insertByStartAt]
  | cons x xs ih =>
      by_cases h : r.startAt < x.startAt
      · simp [insertByStartAt, h]
      · simp only [insertByStartAt, if_neg h]
        exact (List.Perm.cons x ih).trans (List.Perm.swap r x xs)

lemma jsSortByStartAt_perm_aux (l : List RallyRow) :
    ∀ acc, (l.foldl (fun a r => insertByStartAt r a) acc).Perm (acc ++ l) := by
  induction l with
  | nil => intro acc; simp
  | cons r l ih =>
      intro acc
      have h1 := ih (insertByStartAt r acc)
      have h2 : (insertByStartAt r acc ++ l).Perm ((r :: acc) ++ l) :=
        (insertByStartAt_perm r acc).append_right l
      have h3 : (acc ++ r :: l).Perm (r :: (acc ++ l)) := List.perm_middle
      exact ((h1.trans h2).trans h3.symm)

/-- The sorted rows are a permutation of the unsorted mapped rows. -/
lemma jsSortByStartAt_perm (l : List RallyRow) : (jsSortByStartAt l).Perm l := by
  simpa using jsSortByStartAt_perm_aux l []

lemma mem_jsSortByStartAt {r : RallyRow} {l : List RallyRow} :
    r ∈ jsSortByStartAt l ↔ r ∈ l :=
  (jsSortByStartAt_perm l).mem_iff

/-- Evaluation of `rallyComputed` once the starter lookup has succeeded. -/
lemma rallyComputed_eq (players : List Player) (activeRally : Rally) (d now : ℤ)
    (starter : Player)
    (hfind : players.find? (fun p => p.id == activeRally.starterId) = some starter) :
    rallyComputed players (some activeRally) d now = some
      { starter := starter,
        launchAt := activeRally.launchAt,
        rallyStartAt := activeRally.launchAt - d,
        arrivalAt := activeRally.launchAt + starter.marchMs,
        rows := jsSortByStartAt (players.map (mkRow (activeRally.launchAt + starter.marchMs) d
          activeRally.launchAt now)),
        joinRemainingMs := activeRally.launchAt - now,
        phase := if 0 < activeRally.launchAt - now then Phase.JOIN else Phase.MARCH } := by
  simp only [rallyComputed, hfind]

/-- Inversion: a computed schedule pins down the starter lookup and every
field of the result. -/
lemma rallyComputed_some_inv (players : List Player) (activeRally : Rally) (d now : ℤ)
    (rc : RallyComputed)
    (h : rallyComputed players (some activeRally) d now = some rc) :
    ∃ starter, players.find? (fun p => p.id == activeRally.starterId) = some starter ∧
      rc = { starter := starter,
             launchAt := activeRally.launchAt,
             rallyStartAt := activeRally.launchAt - d,
             arrivalAt := activeRally.launchAt + starter.marchMs,
             rows := jsSortByStartAt (players.map
               (mkRow (activeRally.launchAt + starter.marchMs) d activeRally.launchAt now)),
             joinRemainingMs := activeRally.launchAt - now,
             phase := if 0 < activeRally.launchAt - now then Phase.JOIN
               else Phase.MARCH } := by
  cases hfind : players.find? (fun p => p.id == activeRally.starterId) with
  | none =>
      rw [rallyComputed, hfind] at h
      exact absurd h (by simp)
  | some starter =>
      refine ⟨starter, rfl, ?_⟩
      rw [rallyComputed_eq players activeRally d now starter hfind] at h
      exact (Option.some.inj h).symm

/-- Claim C1: with the starter present among the players, every computed row
satisfies `startAt = arrivalAt - marchMs` with
`arrivalAt = launchAt + starter.marchMs`, so any two rows land at the same
instant (`startAt + marchMs` agree), and the row built from the starter has
`startAt = launchAt` exactly. -/
theorem landing_alignment (players : List Player) (activeRally : Rally) (d now : ℤ)
    (rc : RallyComputed)
    (h : rallyComputed players (some activeRally) d now = some rc) :
    rc.starter ∈ players ∧
    rc.starter.id = activeRally.starterId ∧
    rc.launchAt = activeRally.launchAt ∧
    rc.arrivalAt = activeRally.launchAt + rc.starter.marchMs ∧
    (∀ r ∈ rc.rows, r.startAt = rc.arrivalAt - r.marchMs) ∧
    (∀ r1 ∈ rc.rows, ∀ r2 ∈ rc.rows, r1.startAt + r1.marchMs = r2.startAt + r2.marchMs) ∧
    (∃ r ∈ rc.rows, r.id = rc.starter.id ∧ r.marchMs = rc.starter.marchMs ∧
      r.startAt = activeRally.launchAt) := by
  obtain ⟨starter, hfind, rfl⟩ := rallyComputed_some_inv players activeRally d now rc h
  have hmem : starter ∈ players := List.mem_of_find?_eq_some hfind
  have hid : starter.id = activeRally.starterId := by
    have := List.find?_some hfind
    simpa [beq_iff_eq] using this
  have hrow : ∀ r ∈ jsSortByStartAt (players.map (mkRow
      (activeRally.launchAt + starter.marchMs) d activeRally.launchAt now)),
      r.startAt = (activeRally.launchAt + starter.marchMs) - r.marchMs := by
    intro r hr
    rw [mem_jsSortByStartAt] at hr
    obtain ⟨p, _, rfl⟩ := List.mem_map.mp hr
    simp [mkRow]
  refine ⟨hmem, hid, rfl, rfl, hrow, ?_, ?_⟩
  · intro r1 h1 r2 h2
    have e1 := hrow r1 h1
    have e2 := hrow r2 h2
    omega
  · refine ⟨mkRow (activeRally.launchAt + starter.marchMs) d activeRally.launchAt now starter,
      ?_, rfl, rfl, ?_⟩
    · rw [mem_jsSortByStartAt]
      exact List.mem_map_of_mem _ hmem
    · simp [mkRow]

/-- Witness for C1 on the two-player demo scenario. -/
theorem landing_alignment_witness :
    rallyComputed demoPlayers (some demoRally) 300000 0 = some demoRC ∧
      (demoRC.starter ∈ demoPlayers ∧
       demoRC.starter.id = demoRally.starterId ∧
       demoRC.launchAt = demoRally.launchAt ∧
       demoRC.arrivalAt = demoRally.launchAt + demoRC.starter.marchMs ∧
       (∀ r ∈ demoRC.rows, r.startAt = demoRC.arrivalAt - r.marchMs) ∧
       (∀ r1 ∈ demoRC.rows, ∀ r2 ∈ demoRC.rows,
          r1.startAt + r1.marchMs = r2.startAt + r2.marchMs) ∧
       (∃ r ∈ demoRC.rows, r.id = demoRC.starter.id ∧ r.marchMs = demoRC.starter.marchMs ∧
          r.startAt = demoRally.launchAt)) :=
  ⟨by decide, landing_alignment demoPlayers demoRally 300000 0 demoRC (by decide)⟩

/-- Claim C3: for a fixed rally whose starter is present, the phase is a pure
function of the corrected clock — `JOIN` exactly when `now < launchAt`,
`MARCH` exactly when `launchAt ≤ now` — and moving the corrected clock
forward keeps the schedule defined and never leaves `MARCH`, so the phase
flips at most once and never oscillates. -/
theorem phase_pure (players : List Player) (activeRally : Rally) (d now : ℤ)
    (rc : RallyComputed)
    (h : rallyComputed players (some activeRally) d now = some rc) :
    (rc.phase = Phase.JOIN ↔ now < activeRally.launchAt) ∧
    (rc.phase = Phase.MARCH ↔ activeRally.launchAt ≤ now) ∧
    (∀ now2, now ≤ now2 →
        ∃ rc2, rallyComputed players (some activeRally) d now2 = some rc2 ∧
          (rc.phase = Phase.MARCH → rc2.phase = Phase.MARCH)) := by
  obtain ⟨starter, hfind, rfl⟩ := rallyComputed_some_inv players activeRally d now rc h
  refine ⟨?_, ?_, ?_⟩
  · change (if 0 < activeRally.launchAt - now then Phase.JOIN else Phase.MARCH) = Phase.JOIN
      ↔ now < activeRally.launchAt
    by_cases hc : 0 < activeRally.launchAt - now
    · rw [if_pos hc]
      exact ⟨fun _ => by omega, fun _ => rfl⟩
    · rw [if_neg hc]
      exact ⟨fun hM => absurd hM (by decide), fun hlt => absurd hlt (by omega)⟩
  · change (if 0 < activeRally.launchAt - now then Phase.JOIN else Phase.MARCH) = Phase.MARCH
      ↔ activeRally.launchAt ≤ now
    by_cases hc : 0 < activeRally.launchAt - now
    · rw [if_pos hc]
      exact ⟨fun hM => absurd hM (by decide), fun hle => absurd hle (by omega)⟩
    · rw [if_neg hc]
      exact ⟨fun _ => by omega, fun _ => rfl⟩
  · intro now2 h12
    refine ⟨_, rallyComputed_eq players activeRally d now2 starter hfind, ?_⟩
    intro hM
    change (if 0 < activeRally.launchAt - now then Phase.JOIN else Phase.MARCH)
      = Phase.MARCH at hM
    change (if 0 < activeRally.launchAt - now2 then Phase.JOIN else Phase.MARCH) = Phase.MARCH
    by_cases h1 : 0 < activeRally.launchAt - now
    · rw [if_pos h1] at hM
      exact absurd hM (by decide)
    · by_cases h2 : 0 < activeRally.launchAt - now2
      · omega
      · rw [if_neg h2]

/-- Witness for C3 on the demo scenario at corrected instant 0. -/
theorem phase_pure_witness :
    rallyComputed demoPlayers (some demoRally) 300000 0 = some demoRC ∧
      ((demoRC.phase = Phase.JOIN ↔ (0 : ℤ) < demoRally.launchAt) ∧
       (demoRC.phase = Phase.MARCH ↔ demoRally.launchAt ≤ (0 : ℤ)) ∧
       (∀ now2, (0 : ℤ) ≤ now2 →
          ∃ rc2, rallyComputed demoPlayers (some demoRally) 300000 now2 = some rc2 ∧
            (demoRC.phase = Phase.MARCH → rc2.phase = Phase.MARCH))) :=
  ⟨by decide, phase_pure demoPlayers demoRally 300000 0 demoRC (by decide)⟩

/-- Claim C8: the row arithmetic is never clamped — `diffMs`, `landInMs` and
`diffFromLaunchMs` are the exact signed differences, a row whose `startAt`
lies in the past reports a negative `diffMs`, the "(before March)" flag is
derived exactly from the sign of `diffFromLaunchMs = startAt - launchAt` —
while the clamp to zero lives only in the display formatter `formatMs`. -/
theorem signed_row_arithmetic (players : List Player) (activeRally : Rally) (d now : ℤ)
    (rc : RallyComputed)
    (h : rallyComputed players (some activeRally) d now = some rc) :
    (∀ r ∈ rc.rows,
        r.diffMs = r.startAt - now ∧
        r.landInMs = rc.arrivalAt - now ∧
        r.diffFromLaunchMs = r.startAt - rc.launchAt ∧
        (r.startAt < now → r.diffMs < 0) ∧
        (beforeMarchFlag r = true ↔ r.startAt < rc.launchAt)) ∧
    (∀ ms : ℚ, 0 ≤ formatMsTotalSec ms ∧ (ms ≤ 0 → formatMsTotalSec ms = 0)) := by
  constructor
  · obtain ⟨starter, hfind, rfl⟩ := rallyComputed_some_inv players activeRally d now rc h
    intro r hr
    simp only [] at hr
    rw [mem_jsSortByStartAt] at hr
    obtain ⟨p, _, rfl⟩ := List.mem_map.mp hr
    refine ⟨by simp [mkRow], by simp [mkRow], by simp [mkRow], ?_, ?_⟩
    · simp only [mkRow]
      omega
    · simp only [beforeMarchFlag, mkRow, decide_eq_true_eq]
      omega
  · intro ms
    constructor
    · exact le_max_left 0 _
    · intro hms
      have h1 : ms / 1000 < 1 / 2 := by
        rw [div_lt_iff₀ (by norm_num : (0 : ℚ) < 1000)]
        have h500 : (1 : ℚ) / 2 * 1000 = 500 := by norm_num
        rw [h500]
        linarith
      have h2 : jsRound (ms / 1000) ≤ 0 := by
        have h3 : ⌊ms / 1000 + 1 / 2⌋ < (1 : ℤ) := by
          rw [Int.floor_lt]
          push_cast
          linarith
        unfold jsRound
        omega
      exact max_eq_left h2

/-- Witness for C8: in the demo scenario the second player must start before
launch, so the row built from it reports `diffFromLaunchMs = -20000` and the
"(before March)" flag; `formatMs` clamps a negative duration to zero. -/
theorem signed_row_arithmetic_witness :
    rallyComputed demoPlayers (some demoRally) 300000 0 = some demoRC ∧
      ((∀ r ∈ demoRC.rows,
          r.diffMs = r.startAt - 0 ∧
          r.landInMs = demoRC.arrivalAt - 0 ∧
          r.diffFromLaunchMs = r.startAt - demoRC.launchAt ∧
          (r.startAt < 0 → r.diffMs < 0) ∧
          (beforeMarchFlag r = true ↔ r.startAt < demoRC.launchAt)) ∧
       (∀ ms : ℚ, 0 ≤ formatMsTotalSec ms ∧ (ms ≤ 0 → formatMsTotalSec ms = 0))) :=
  ⟨by decide, signed_row_arithmetic demoPlayers demoRally 300000 0 demoRC (by decide)⟩

/-! ## Server state machine theorems -/

/-- Claim C6: removing the player referenced by `rally.starterId` (any
non-empty id the guard lets through) leaves the next broadcast state with no
rally; and on the client a rally whose starter is not found among the players
computes to `none`, exactly the no-active-rally result. -/
theorem dangling_starter_healing :
    (∀ (st : RoomState) (now : ℤ) (r : Rally), st.rally = some r → r.starterId ≠ "" →
        (handleMessage now st (.PLAYER_REMOVE r.starterId)).rally = none) ∧
    (∀ (players : List Player) (r : Rally) (d now : ℤ),
        players.find? (fun p => p.id == r.starterId) = none →
        rallyComputed players (some r) d now = none ∧
        rallyComputed players (some r) d now = rallyComputed players none d now) := by
  constructor
  · intro st now r hr hne
    simp [handleMessage, hne, hr]
  · intro players r d now hfind
    have h1 : rallyComputed players (some r) d now = none := by
      rw [rallyComputed, hfind]
    exact ⟨h1, by rw [h1]; rfl⟩

/-- Witness for C6: removing the demo starter clears the rally, and a rally
whose starter is missing computes to no schedule. -/
theorem dangling_starter_healing_witness :
    (demoRoom.rally = some demoRally ∧ demoRally.starterId ≠ "" ∧
        (handleMessage 5 demoRoom (.PLAYER_REMOVE demoRally.starterId)).rally = none) ∧
    ([demoPlayerTwo].find? (fun p => p.id == demoRally.starterId) = none ∧
        rallyComputed [demoPlayerTwo] (some demoRally) 300000 0 = none) :=
  ⟨⟨rfl, by decide, dangling_starter_healing.1 demoRoom 5 demoRally rfl (by decide)⟩,
   ⟨by decide, (dangling_starter_healing.2 [demoPlayerTwo] demoRally 300000 0 (by decide)).1⟩⟩

/-- Counterexample to claim C5: a `RALLY_START` carrying a client-supplied
finite `launchAt` (here 42) is adopted verbatim by the server — the rally's
instant is not `receiveTime + preDelayMs + rallyDurationMs`
(which would be 1000000 + 0 + 10). -/
theorem rally_start_client_launchAt_cex :
    (handleMessage 1000000 (initialState 0)
        (.RALLY_START "s" (.fin 42) (.fin 10) (.fin 0))).rally = some ⟨"s", 42⟩ ∧
      (42 : ℤ) ≠ 1000000 + 0 + 10 := by
  constructor
  · decide
  · decide

/-- Claim C5 (amended): when the `RALLY_START` payload carries no finite
`launchAt`, and its `rallyDurationMs` is a finite non-negative number and its
`preDelayMs` is absent or a finite non-negative number, the server sets the
rally authoritatively to `launchAt = receiveTime + preDelayMs +
rallyDurationMs`; a finite client-supplied `launchAt` is instead adopted
verbatim. -/
theorem rally_start_server_launchAt (st : RoomState) (now : ℤ) (sid : String)
    (la dur pre : JsNumber) (d e : ℤ)
    (hsid : sid ≠ "") (hla : coerceNum la = none)
    (hd : coerceNum dur = some d) (he : coerceNumOrZero pre = some e)
    (hd0 : 0 ≤ d) (he0 : 0 ≤ e) :
    (handleMessage now st (.RALLY_START sid la dur pre)).rally = some ⟨sid, now + e + d⟩ := by
  simp only [handleMessage]
  rw [if_neg hsid]
  simp only [hla, hd, he]
  rw [if_neg (by omega : ¬(d < 0 ∨ e < 0))]

/-- Witness for C5 (amended) at a concrete message. -/
theorem rally_start_server_launchAt_witness :
    ("s" ≠ "" ∧ coerceNum JsNumber.undef = none ∧
        coerceNum (JsNumber.fin 10) = some 10 ∧ coerceNumOrZero (JsNumber.fin 7) = some 7 ∧
        (0 : ℤ) ≤ 10 ∧ (0 : ℤ) ≤ 7) ∧
      (handleMessage 1000 (initialState 0)
          (.RALLY_START "s" .undef (.fin 10) (.fin 7))).rally = some ⟨"s", 1000 + 7 + 10⟩ :=
  ⟨⟨by decide, rfl, rfl, rfl, by decide, by decide⟩,
   rally_start_server_launchAt (initialState 0) 1000 "s" .undef (.fin 10) (.fin 7) 10 7
     (by decide) rfl rfl rfl (by decide) (by decide)⟩

/-- Counterexample to claim C7: the server never validates the starter of a
`RALLY_START`, so starting a rally for the absent id "ghost" produces a
dangling rally, and it is still dangling after a further transition
(a `PLAYER_ADD`) — the reference outlives one state transition. -/
theorem rally_dangling_cex :
    ghostRoomOne.rally = some ⟨"ghost", 15⟩ ∧
    (ghostRoomOne.players.all fun p => p.id != "ghost") = true ∧
    ghostRoomTwo.rally = some ⟨"ghost", 15⟩ ∧
    (ghostRoomTwo.players.all fun p => p.id != "ghost") = true := by
  decide

/-- The upsert preserves the presence of any id. -/
lemma any_id_upsert (players : List Player) (payload : Player) (sid : String)
    (h : players.any (fun p => p.id == sid) = true) :
    (upsert players payload).any (fun p => p.id == sid) = true := by
  induction players with
  | nil => simp at h
  | cons q rest ih =>
      rw [List.any_cons] at h
      by_cases hq : q.id == payload.id
      · simp only [upsert, if_pos hq, List.any_cons]
        rcases Bool.or_eq_true_iff.mp h with hqs | hrest
        · apply Bool.or_eq_true_iff.mpr
          left
          rw [beq_iff_eq] at hq hqs ⊢
          rw [← hq]
          exact hqs
        · exact Bool.or_eq_true_iff.mpr (Or.inr hrest)
      · simp only [upsert, if_neg hq, List.any_cons]
        rcases Bool.or_eq_true_iff.mp h with hqs | hrest
        · exact Bool.or_eq_true_iff.mpr (Or.inl hqs)
        · exact Bool.or_eq_true_iff.mpr (Or.inr (ih hrest))

/-- One validated transition preserves starter presence. -/
lemma step_preserves_starter (now : ℤ) (st : RoomState) (msg : ClientMsg)
    (h : starterPresentB st = true) (hv : startValidatedB st msg = true) :
    starterPresentB (handleMessage now st msg) = true := by
  cases msg with
  | STATE_REQUEST => exact h
  | TIME_SYNC_REQUEST t0 => exact h
  | RALLY_END => rfl
  | PLAYER_ADD payload =>
      by_cases hid : payload.id = ""
      · simp only [handleMessage, if_pos hid]
        exact h
      · simp only [handleMessage, if_neg hid]
        unfold starterPresentB at h ⊢
        cases hr : st.rally with
        | none => simp [hr]
        | some r =>
            rw [hr] at h
            show (upsert st.players payload).any (fun p => p.id == r.starterId) = true
            exact any_id_upsert st.players payload r.starterId h
  | PLAYER_REMOVE id =>
      by_cases hid : id = ""
      · simp only [handleMessage, if_pos hid]
        exact h
      · simp only [handleMessage, if_neg hid]
        unfold starterPresentB at h ⊢
        cases hr : st.rally with
        | none => simp [hr]
        | some r =>
            rw [hr] at h
            simp only [hr]
            by_cases hsid : r.starterId = id
            · simp [if_pos hsid]
            · simp only [if_neg hsid]
              rw [List.any_eq_true] at h
              obtain ⟨p, hp, hpid⟩ := h
              rw [List.any_eq_true]
              refine ⟨p, List.mem_filter.mpr ⟨hp, ?_⟩, hpid⟩
              rw [beq_iff_eq] at hpid
              rw [bne_iff_ne]
              rw [hpid]
              exact hsid
  | RALLY_START sid la dur pre =>
      have hvany : st.players.any (fun p => p.id == sid) = true := hv
      by_cases hsid : sid = ""
      · simp only [handleMessage, if_pos hsid]
        exact h
      · simp only [handleMessage, if_neg hsid]
        cases hla : coerceNum la with
        | some v =>
            simp only [hla]
            show st.players.any (fun p => p.id == sid) = true
            exact hvany
        | none =>
            simp only [hla]
            cases hd : coerceNum dur with
            | none =>
                simp only [hd]
                exact h
            | some d =>
                cases he : coerceNumOrZero pre with
                | none =>
                    simp only [hd, he]
                    exact h
                | some e =>
                    simp only [hd, he]
                    by_cases hneg : d < 0 ∨ e < 0
                    · rw [if_pos hneg]
                      exact h
                    · rw [if_neg hneg]
                      show st.players.any (fun p => p.id == sid) = true
                      exact hvany

/-- Starter presence is preserved along every validated trace. -/
lemma trace_preserves_starter (tr : List (ℤ × ClientMsg)) :
    ∀ st : RoomState, starterPresentB st = true → validTraceB st tr = true →
      starterPresentB (runTrace st tr) = true := by
  induction tr with
  | nil => intro st h _; exact h
  | cons nm tr ih =>
      intro st h hv
      obtain ⟨hv1, hv2⟩ := Bool.and_eq_true_iff.mp hv
      exact ih (handleMessage nm.1 st nm.2) (step_preserves_starter nm.1 st nm.2 h hv1) hv2

/-- Claim C7 (amended): the server does not validate `RALLY_START`, so a rally
started for an absent starter id can stay dangling for arbitrarily many
transitions; restricted to traces in which every `RALLY_START` names a player
present in the room it is applied to — which is what the web client sends —
every state reachable from the default empty room has the rally's starter
present whenever a rally is present (the dangling state never occurs at all,
and `PLAYER_REMOVE` of the starter clears the rally within the same
transition). -/
theorem rally_starter_invariant (n0 : ℤ) (tr : List (ℤ × ClientMsg))
    (hv : validTraceB (initialState n0) tr = true) :
    starterPresentB (runTrace (initialState n0) tr) = true :=
  trace_preserves_starter tr (initialState n0) rfl hv

/-- Witness for C7 (amended) on a concrete validated trace. -/
theorem rally_starter_invariant_witness :
    validTraceB (initialState 0) demoTrace = true ∧
      starterPresentB (runTrace (initialState 0) demoTrace) = true :=
  ⟨by decide, rally_starter_invariant 0 demoTrace (by decide)⟩

/-! ## Room expiry -/

/-- Claim C10: at any realistic load instant (more than six hours past the
epoch), a stored room whose `lastActiveAt` is missing, or lies more than
`MAX_AGE_MS` (6 hours) before the current time, is discarded and replaced by
the default empty room stamped with `now`; otherwise the stored state is
loaded unchanged. -/
theorem room_expiry (st : StoredRoom) (now : ℤ) (hnow : MAX_AGE_MS < now) :
    (st.lastActiveAt = none →
        ensureLoaded (some st) now = ⟨[], none, now⟩) ∧
    (∀ la, st.lastActiveAt = some la → MAX_AGE_MS < now - la →
        ensureLoaded (some st) now = ⟨[], none, now⟩) ∧
    (∀ la, st.lastActiveAt = some la → now - la ≤ MAX_AGE_MS →
        ensureLoaded (some st) now = ⟨st.players, st.rally, la⟩) := by
  have hM : MAX_AGE_MS = 21600000 := rfl
  refine ⟨?_, ?_, ?_⟩
  · intro hla
    simp only [ensureLoaded, hla]
  · intro la hla hold
    simp only [ensureLoaded, hla, if_pos (Or.inr hold)]
  · intro la hla hfresh
    have hcond : ¬(la = 0 ∨ MAX_AGE_MS < now - la) := by omega
    simp only [ensureLoaded, hla, if_neg hcond]

/-- Witness for C10: a stored room active one millisecond ago is kept
unchanged. -/
theorem room_expiry_witness :
    (MAX_AGE_MS < (1000000000 : ℤ) ∧ demoStored.lastActiveAt = some 999999999 ∧
        (1000000000 : ℤ) - 999999999 ≤ MAX_AGE_MS) ∧
      ensureLoaded (some demoStored) 1000000000
        = ⟨demoStored.players, demoStored.rally, 999999999⟩ :=
  ⟨⟨by decide, rfl, by decide⟩,
   (room_expiry demoStored 1000000000 (by decide)).2.2 999999999 rfl (by decide)⟩

end WosRally
